import Mathlib

/-!
Shallow embedding of the BilibiliPlayer client (src/bilibili.py) in Lean 4,
together with theorems settling the specification claims about it.

Conventions of the embedding:

* Python strings are Lean `String`s; character-level operations work on
  `String.data` (Python indexes strings by code point, as `List Char` does).
* Python `dict`s are insertion-ordered association lists with unique keys;
  `dictInsert` models `d[k] = v` (update in place, else append at the end).
* Python string comparison is lexicographic by code point; `strLe` models it
  directly over the char lists so that it is kernel-computable.
* Fallible Python code (raising `IndexError` / `KeyError` / `AttributeError`)
  is modelled with `Option`: `none` is an uncaught exception.
* `urllib.parse.urlencode(params, quote_via=urllib.parse.quote)` and
  `hashlib.md5(...).hexdigest()` are standard-library calls; they are embedded
  faithfully below (`urlencode`, `md5Hex`) following their documented
  algorithms (percent-encoding of the UTF-8 bytes with the unreserved set
  `A-Z a-z 0-9 _ . - ~`, and RFC 1321 MD5).
-/

/-- A banker-rounded scalar value of a Python parameter dict: the source only
ever stores strings and integers in the dicts passed to `encWbi`. -/
inductive Val where
  | vStr (s : String)
  | vInt (n : Int)
deriving DecidableEq

/-- Python `str(v)` on the scalar values used by the source. -/
def Val.str : Val → String
  | .vStr s => s
  | .vInt n => toString n

/-- The characters removed from values by `encWbi` (the Python literal
written in src/bilibili.py line 29): `!`, the apostrophe, `(`, `)`, `*`. -/
def badChars : List Char := [Char.ofNat 33, Char.ofNat 39, Char.ofNat 40, Char.ofNat 41, Char.ofNat 42]

/-- Python `''.join(filter(lambda chr: chr not in "!'()*", s))`
(src/bilibili.py line 29). -/
def stripBad (s : String) : String :=
  String.mk (s.data.filter (fun c => !(badChars.contains c)))

/-- The characters `urllib.parse.quote` never encodes when called with
`safe=''` (as `urlencode` does): ASCII letters, digits, and `_.-~`. -/
def safeChars : List Char :=
  "ABCDEFGHIJKLMNOPQRSTUVWXYZabcdefghijklmnopqrstuvwxyz0123456789_.-~".data

/-- Uppercase hex digit, as `urllib.parse.quote` uses for percent escapes. -/
def hexUpper (n : Nat) : Char :=
  if n < 10 then Char.ofNat (48 + n) else Char.ofNat (55 + n)

/-- The UTF-8 encoding of one code point, as a list of byte values. -/
def utf8Bytes (c : Char) : List Nat :=
  let n := c.toNat
  if n < 128 then [n]
  else if n < 2048 then [192 ||| (n >>> 6), 128 ||| (n &&& 63)]
  else if n < 65536 then
    [224 ||| (n >>> 12), 128 ||| ((n >>> 6) &&& 63), 128 ||| (n &&& 63)]
  else
    [240 ||| (n >>> 18), 128 ||| ((n >>> 12) &&& 63),
     128 ||| ((n >>> 6) &&& 63), 128 ||| (n &&& 63)]

/-- A percent escape `%XY` for one byte. -/
def pctEncodeByte (b : Nat) : List Char :=
  [Char.ofNat 37, hexUpper (b / 16 % 16), hexUpper (b % 16)]

/-- Python `urllib.parse.quote(s, safe='')`: keep the unreserved characters,
percent-encode every UTF-8 byte of everything else (spaces become `%20`). -/
def quote (s : String) : String :=
  String.mk (s.data.flatMap (fun c =>
    if safeChars.contains c then [c] else (utf8Bytes c).flatMap pctEncodeByte))

/-- Python `urllib.parse.urlencode(params, quote_via=urllib.parse.quote)` on a
dict whose keys and values are strings (src/bilibili.py line 33). -/
def urlencode (params : List (String × String)) : String :=
  String.intercalate "&" (params.map (fun kv => quote kv.1 ++ "=" ++ quote kv.2))

/-- Three-way lexicographic comparison of char lists by code point, exactly
Python string comparison. -/
def cmpChars : List Char → List Char → Ordering
  | [], [] => .eq
  | [], _ :: _ => .lt
  | _ :: _, [] => .gt
  | a :: as, b :: bs =>
    if a.toNat < b.toNat then .lt
    else if b.toNat < a.toNat then .gt
    else cmpChars as bs

/-- Python `a <= b` on strings. -/
def strLe (a b : String) : Bool :=
  match cmpChars a.data b.data with
  | .gt => false
  | _ => true

/-- Python dict assignment `d[k] = v`: replace the value of an existing key in
place, otherwise append the new pair at the end. -/
def dictInsert {α : Type} (k : String) (v : α) : List (String × α) → List (String × α)
  | [] => [(k, v)]
  | p :: ps => if p.1 = k then (k, v) :: ps else p :: dictInsert k v ps

/-- Python `d.update(other)`: insert every pair of `other` in order. -/
def dictUpdate {α : Type} (d other : List (String × α)) : List (String × α) :=
  other.foldl (fun acc p => dictInsert p.1 p.2 acc) d

/-- Ordering of dict items used by `dict(sorted(params.items()))`: ascending
by key (keys are unique in a dict, so the tuple comparison never reaches the
values). -/
def itemLe {α : Type} (a b : String × α) : Prop := strLe a.1 b.1 = true

instance {α : Type} : DecidableRel (@itemLe α) :=
  fun a b => inferInstanceAs (Decidable (_ = true))

/-- The fixed 64-entry permutation table of the WBI key mixing
(src/bilibili.py lines 10-15). -/
def mixinKeyEncTab : List Nat :=
  [46, 47, 18, 2, 53, 8, 23, 32, 15, 50, 10, 31, 58, 3, 45, 35, 27, 43, 5, 49,
   33, 9, 42, 19, 29, 28, 14, 39, 12, 38, 41, 13, 37, 48, 7, 16, 24, 55, 40,
   61, 26, 17, 0, 1, 60, 51, 30, 4, 22, 25, 54, 21, 56, 59, 6, 63, 57, 62, 11,
   36, 20, 34, 44, 52]

/-- src/bilibili.py lines 17-19:
`reduce(lambda s, i: s + orig[i], mixinKeyEncTab, '')[:32]`.
`orig[i]` raises `IndexError` when `i` is out of range, so the embedding
returns `none` in that case. -/
def getMixinKey (orig : String) : Option String :=
  (mixinKeyEncTab.foldlM
      (fun s i => (orig.data.get? i).map (fun c => s ++ [c])) []).map
    (fun l => String.mk (l.take 32))

-- ---------------------------------------------------------------------------
-- MD5 (RFC 1321), the meaning of `hashlib.md5(bytes).hexdigest()`.
-- Machine words are `Nat`s reduced modulo 2^32.
-- ---------------------------------------------------------------------------

/-- Truncation to a 32-bit word. -/
def w32 (n : Nat) : Nat := n % 4294967296

/-- Left rotation of a 32-bit word. -/
def rotl32 (x s : Nat) : Nat := ((x <<< s) ||| (x >>> (32 - s))) % 4294967296

/-- The 64 MD5 sine-derived constants. -/
def md5K : List Nat :=
  [0xd76aa478, 0xe8c7b756, 0x242070db, 0xc1bdceee,
   0xf57c0faf, 0x4787c62a, 0xa8304613, 0xfd469501,
   0x698098d8, 0x8b44f7af, 0xffff5bb1, 0x895cd7be,
   0x6b901122, 0xfd987193, 0xa679438e, 0x49b40821,
   0xf61e2562, 0xc040b340, 0x265e5a51, 0xe9b6c7aa,
   0xd62f105d, 0x02441453, 0xd8a1e681, 0xe7d3fbc8,
   0x21e1cde6, 0xc33707d6, 0xf4d50d87, 0x455a14ed,
   0xa9e3e905, 0xfcefa3f8, 0x676f02d9, 0x8d2a4c8a,
   0xfffa3942, 0x8771f681, 0x6d9d6122, 0xfde5380c,
   0xa4beea44, 0x4bdecfa9, 0xf6bb4b60, 0xbebfbc70,
   0x289b7ec6, 0xeaa127fa, 0xd4ef3085, 0x04881d05,
   0xd9d4d039, 0xe6db99e5, 0x1fa27cf8, 0xc4ac5665,
   0xf4292244, 0x432aff97, 0xab9423a7, 0xfc93a039,
   0x655b59c3, 0x8f0ccc92, 0xffeff47d, 0x85845dd1,
   0x6fa87e4f, 0xfe2ce6e0, 0xa3014314, 0x4e0811a1,
   0xf7537e82, 0xbd3af235, 0x2ad7d2bb, 0xeb86d391]

/-- The 64 MD5 per-round left-rotation amounts. -/
def md5S : List Nat :=
  [7, 12, 17, 22, 7, 12, 17, 22, 7, 12, 17, 22, 7, 12, 17, 22,
   5, 9, 14, 20, 5, 9, 14, 20, 5, 9, 14, 20, 5, 9, 14, 20,
   4, 11, 16, 23, 4, 11, 16, 23, 4, 11, 16, 23, 4, 11, 16, 23,
   6, 10, 15, 21, 6, 10, 15, 21, 6, 10, 15, 21, 6, 10, 15, 21]

/-- The MD5 round function for round `i`. -/
def md5F (i b c d : Nat) : Nat :=
  if i < 16 then (b &&& c) ||| ((b ^^^ 4294967295) &&& d)
  else if i < 32 then (d &&& b) ||| ((d ^^^ 4294967295) &&& c)
  else if i < 48 then b ^^^ c ^^^ d
  else c ^^^ (b ||| (d ^^^ 4294967295))

/-- The MD5 message-word index used in round `i`. -/
def md5G (i : Nat) : Nat :=
  if i < 16 then i
  else if i < 32 then (5 * i + 1) % 16
  else if i < 48 then (3 * i + 5) % 16
  else (7 * i) % 16

/-- The `j`-th little-endian 32-bit word of a 64-byte block. -/
def md5Word (block : List Nat) (j : Nat) : Nat :=
  block.getD (4 * j) 0 + 256 * block.getD (4 * j + 1) 0 +
    65536 * block.getD (4 * j + 2) 0 + 16777216 * block.getD (4 * j + 3) 0

/-- One MD5 round on the state `(a, b, c, d)`. -/
def md5Step (block : List Nat) (st : Nat × Nat × Nat × Nat) (i : Nat) :
    Nat × Nat × Nat × Nat :=
  let (a, b, c, d) := st
  let f := w32 (md5F i b c d + a + md5K.getD i 0 + md5Word block (md5G i))
  (d, w32 (b + rotl32 f (md5S.getD i 0)), b, c)

/-- Processing one 64-byte block: 64 rounds, then add the previous state. -/
def md5Block (st : Nat × Nat × Nat × Nat) (block : List Nat) :
    Nat × Nat × Nat × Nat :=
  let (a, b, c, d) := (List.range 64).foldl (md5Step block) st
  (w32 (st.1 + a), w32 (st.2.1 + b), w32 (st.2.2.1 + c), w32 (st.2.2.2 + d))

/-- MD5 padding: a `0x80` byte, zeros to 56 mod 64, then the bit length as a
little-endian 64-bit number. -/
def md5Pad (msg : List Nat) : List Nat :=
  msg ++ 128 :: List.replicate ((120 - (msg.length + 1) % 64) % 64) 0 ++
    (List.range 8).map (fun i => ((msg.length * 8 % 18446744073709551616) >>> (8 * i)) % 256)

/-- Split a byte list into 64-byte blocks. -/
def md5Chunks : List Nat → List (List Nat)
  | [] => []
  | b :: rest => ((b :: rest).take 64) :: md5Chunks ((b :: rest).drop 64)
termination_by l => l.length
decreasing_by simp; omega

/-- Lowercase hex digit, as `hexdigest` uses. -/
def hexLower (n : Nat) : Char :=
  if n < 10 then Char.ofNat (48 + n) else Char.ofNat (87 + n)

/-- Two lowercase hex digits of a byte. -/
def byteToHex (b : Nat) : List Char := [hexLower (b / 16 % 16), hexLower (b % 16)]

/-- The four bytes of a 32-bit word, little-endian. -/
def wordBytesLE (word : Nat) : List Nat :=
  [word % 256, word >>> 8 % 256, word >>> 16 % 256, word >>> 24 % 256]

/-- Python `hashlib.md5(msg).hexdigest()` on a byte list. -/
def md5Hex (msg : List Nat) : String :=
  let st := (md5Chunks (md5Pad msg)).foldl md5Block
    (0x67452301, 0xefcdab89, 0x98badcfe, 0x10325476)
  String.mk ((wordBytesLE st.1 ++ wordBytesLE st.2.1 ++
    wordBytesLE st.2.2.1 ++ wordBytesLE st.2.2.2).flatMap byteToHex)

/-- Python `s.encode()`: the UTF-8 bytes of a string. -/
def strBytes (s : String) : List Nat := s.data.flatMap utf8Bytes

-- ---------------------------------------------------------------------------
-- encWbi (src/bilibili.py lines 21-37), split into its successive stages.
-- The wall-clock reading `round(time.time())` is passed in as `t`.
-- ---------------------------------------------------------------------------

/-- Lines 25-26: `params['wts'] = curr_time; params = dict(sorted(params.items()))`.
Python `sorted` is a stable sort; on the unique keys of a dict any stable
sort computes the same list, here `List.insertionSort`. -/
def encWbiSorted (params : List (String × Val)) (t : Int) : List (String × Val) :=
  List.insertionSort itemLe (dictInsert "wts" (Val.vInt t) params)

/-- Lines 28-32: the comprehension stringifying every value and filtering the
characters of `badChars` out of it. -/
def encWbiStripped (params : List (String × Val)) (t : Int) : List (String × String) :=
  (encWbiSorted params t).map (fun kv => (kv.1, stripBad kv.2.str))

/-- Line 33: the canonical query string `urlencode(params, quote_via=quote)`. -/
def encWbiQuery (params : List (String × Val)) (t : Int) : String :=
  urlencode (encWbiStripped params t)

/-- Lines 21-37, the returned dict: the stripped sorted parameters with
`w_rid` set to `md5((query + mixin_key).encode()).hexdigest()`. `none` models
the `IndexError` from `getMixinKey` on short keys. -/
def encWbi (params : List (String × Val)) (img_key sub_key : String) (t : Int) :
    Option (List (String × String)) :=
  (getMixinKey (img_key ++ sub_key)).map (fun mixin_key =>
    dictInsert "w_rid" (md5Hex (strBytes (encWbiQuery params t ++ mixin_key)))
      (encWbiStripped params t))

/-- The caller-visible state of the `params` dict after `encWbi` returned:
line 25 mutates the argument dict itself (the later rebindings of the local
name `params` do not touch it). -/
def encWbiCaller (params : List (String × Val)) (t : Int) : List (String × Val) :=
  dictInsert "wts" (Val.vInt t) params

-- ---------------------------------------------------------------------------
-- Order lemmas for the Python string comparison
-- ---------------------------------------------------------------------------

theorem char_toNat_inj {a b : Char} (h : a.toNat = b.toNat) : a = b := by
  apply Char.eq_of_val_eq
  apply UInt32.eq_of_toBitVec_eq
  exact BitVec.eq_of_toNat_eq (by simpa [UInt32.toNat] using h)

theorem cmpChars_eq_iff (a b : List Char) : cmpChars a b = .eq ↔ a = b := by
  induction a generalizing b with
  | nil => cases b <;> simp [cmpChars]
  | cons x xs ih =>
    cases b with
    | nil => simp [cmpChars]
    | cons y ys =>
      simp only [cmpChars]
      by_cases h1 : x.toNat < y.toNat
      · simp only [if_pos h1]
        constructor
        · intro hc; simp at hc
        · intro hc; injection hc with hx _; subst hx; omega
      · by_cases h2 : y.toNat < x.toNat
        · simp only [if_neg h1, if_pos h2]
          constructor
          · intro hc; simp at hc
          · intro hc; injection hc with hx _; subst hx; omega
        · have hxy : x = y := char_toNat_inj (by omega)
          subst hxy
          simp [if_neg h1, if_neg h2, ih]

theorem cmpChars_swap (a b : List Char) : cmpChars b a = (cmpChars a b).swap := by
  induction a generalizing b with
  | nil => cases b <;> simp [cmpChars, Ordering.swap]
  | cons x xs ih =>
    cases b with
    | nil => simp [cmpChars, Ordering.swap]
    | cons y ys =>
      simp only [cmpChars]
      by_cases h1 : x.toNat < y.toNat
      · simp [if_pos h1, if_neg (by omega : ¬ y.toNat < x.toNat), Ordering.swap]
      · by_cases h2 : y.toNat < x.toNat
        · simp [if_neg h1, if_pos h2, Ordering.swap]
        · simp [if_neg h1, if_neg h2, ih]

theorem cmpChars_lt_trans {a b c : List Char} (h1 : cmpChars a b = .lt)
    (h2 : cmpChars b c = .lt) : cmpChars a c = .lt := by
  induction a generalizing b c with
  | nil =>
    cases b with
    | nil => simpa [cmpChars] using h1
    | cons y ys =>
      cases c with
      | nil => simp [cmpChars] at h2
      | cons z zs => simp [cmpChars]
  | cons x xs ih =>
    cases b with
    | nil => simp [cmpChars] at h1
    | cons y ys =>
      cases c with
      | nil => simp [cmpChars] at h2
      | cons z zs =>
        simp only [cmpChars] at h1 h2 ⊢
        by_cases hxy : x.toNat < y.toNat
        · by_cases hyz : y.toNat < z.toNat
          · simp [if_pos (by omega : x.toNat < z.toNat)]
          · by_cases hzy : z.toNat < y.toNat
            · simp [if_neg hyz, if_pos hzy] at h2
            · simp [if_pos (by omega : x.toNat < z.toNat)]
        · by_cases hyx : y.toNat < x.toNat
          · simp [if_neg hxy, if_pos hyx] at h1
          · by_cases hyz : y.toNat < z.toNat
            · simp [if_pos (by omega : x.toNat < z.toNat)]
            · by_cases hzy : z.toNat < y.toNat
              · simp [if_neg hyz, if_pos hzy] at h2
              · have hxz : ¬ x.toNat < z.toNat := by omega
                have hzx : ¬ z.toNat < x.toNat := by omega
                simp only [if_neg hxy, if_neg hyx] at h1
                simp only [if_neg hyz, if_neg hzy] at h2
                simp [if_neg hxz, if_neg hzx, ih h1 h2]

theorem strLe_iff (a b : String) : strLe a b = true ↔ cmpChars a.data b.data ≠ .gt := by
  unfold strLe
  rcases h : cmpChars a.data b.data with _ | _ | _ <;> simp [h]

theorem string_data_eq {a b : String} (h : a.data = b.data) : a = b := by
  cases a; cases b; exact congrArg String.mk h

theorem strLe_refl (a : String) : strLe a a = true := by
  rw [strLe_iff, (cmpChars_eq_iff a.data a.data).mpr rfl]
  simp

theorem strLe_total (a b : String) : strLe a b = true ∨ strLe b a = true := by
  rw [strLe_iff, strLe_iff, cmpChars_swap b.data a.data]
  rcases h : cmpChars b.data a.data with _ | _ | _ <;> simp [h, Ordering.swap]

theorem strLe_trans {a b c : String} (h1 : strLe a b = true) (h2 : strLe b c = true) :
    strLe a c = true := by
  rw [strLe_iff] at h1 h2 ⊢
  rcases hab : cmpChars a.data b.data with _ | _ | _
  · rcases hbc : cmpChars b.data c.data with _ | _ | _
    · simp [cmpChars_lt_trans hab hbc]
    · rw [(cmpChars_eq_iff b.data c.data).mp hbc] at hab
      simp [hab]
    · exact absurd hbc h2
  · rw [(cmpChars_eq_iff a.data b.data).mp hab]
    exact h2
  · exact absurd hab h1

theorem strLe_antisymm {a b : String} (h1 : strLe a b = true) (h2 : strLe b a = true) :
    a = b := by
  rw [strLe_iff] at h1 h2
  rw [cmpChars_swap a.data b.data] at h2
  apply string_data_eq
  apply (cmpChars_eq_iff a.data b.data).mp
  rcases h : cmpChars a.data b.data with _ | _ | _
  · rw [h] at h2; simp [Ordering.swap] at h2
  · rfl
  · exact absurd h h1

instance {α : Type} : IsTotal (String × α) itemLe :=
  ⟨fun a b => strLe_total a.1 b.1⟩

instance {α : Type} : IsTrans (String × α) itemLe :=
  ⟨fun _ _ _ => strLe_trans⟩

/-- Two lists of pairs that are permutations of each other, both sorted by
key, with no duplicate keys, are equal: the uniqueness of the sorted order of
a dict. -/
theorem eq_of_perm_of_sorted_keys {α : Type} : ∀ {l₁ l₂ : List (String × α)},
    l₁.Perm l₂ → l₁.Sorted itemLe → l₂.Sorted itemLe →
    (l₁.map Prod.fst).Nodup → l₁ = l₂ := by
  intro l₁
  induction l₁ with
  | nil => intro l₂ hp _ _ _; exact (hp.nil_eq).symm ▸ rfl
  | cons x xs ih =>
    intro l₂ hp hs₁ hs₂ hn
    cases l₂ with
    | nil => exact absurd hp.symm.nil_eq (by simp)
    | cons y ys =>
      have hx2 : x ∈ y :: ys := hp.mem_iff.mp (by simp)
      have hy1 : y ∈ x :: xs := hp.mem_iff.mpr (by simp)
      have hxy : itemLe x y := by
        rcases List.mem_cons.mp hy1 with h | h
        · rw [h]; exact strLe_refl _
        · exact List.rel_of_sorted_cons hs₁ y h
      have hyx : itemLe y x := by
        rcases List.mem_cons.mp hx2 with h | h
        · rw [h]; exact strLe_refl _
        · exact List.rel_of_sorted_cons hs₂ x h
      have hkey : x.1 = y.1 := strLe_antisymm hxy hyx
      have hxyeq : x = y := by
        rcases List.mem_cons.mp hx2 with h | h
        · exact h
        · exfalso
          have hyys : y.1 ∈ ys.map Prod.fst := hkey ▸ List.mem_map_of_mem Prod.fst h
          have hn₂ : ((y :: ys).map Prod.fst).Nodup :=
            (hp.map Prod.fst).nodup_iff.mp hn
          rw [List.map_cons] at hn₂
          exact (List.nodup_cons.mp hn₂).1 hyys
      subst hxyeq
      have := ih (hp.cons_inv) hs₁.of_cons hs₂.of_cons (by simpa using hn.of_cons)
      rw [this]

-- ---------------------------------------------------------------------------
-- getMixinKey: the table-indexing description and the bounds behavior
-- ---------------------------------------------------------------------------

/-- The mixing key as the spec describes it: read the characters of the
concatenation at the positions of the permutation table, in table order, and
keep the first 32 characters so produced. -/
def specMixinKey (s : String) : String :=
  String.mk ((mixinKeyEncTab.map (fun i => s.data.getD i (Char.ofNat 0))).take 32)

theorem getMixinKey_foldlM_some (s : List Char) :
    ∀ (tab : List Nat) (acc : List Char), (∀ i ∈ tab, i < s.length) →
    tab.foldlM (fun l i => (s.get? i).map (fun c => l ++ [c])) acc
      = some (acc ++ tab.map (fun i => s.getD i (Char.ofNat 0))) := by
  intro tab
  induction tab with
  | nil => intro acc _; simp
  | cons j tis ih =>
    intro acc h
    have hj : j < s.length := h j (by simp)
    have hget : s.get? j = some (s.getD j (Char.ofNat 0)) := by
      rw [List.get?_eq_getElem?, List.getElem?_eq_getElem hj,
        List.getD_eq_getElem?_getD, List.getElem?_eq_getElem hj]
      rfl
    rw [List.foldlM_cons, hget]
    show (tis.foldlM _ _) = _
    rw [ih _ (fun i hi => h i (by simp [hi]))]
    simp

theorem getMixinKey_foldlM_none (s : List Char) :
    ∀ (tab : List Nat) (acc : List Char) (i : Nat), i ∈ tab → s.get? i = none →
    tab.foldlM (fun l i => (s.get? i).map (fun c => l ++ [c])) acc = none := by
  intro tab
  induction tab with
  | nil => intro acc i hi; simp at hi
  | cons j tis ih =>
    intro acc i hi hnone
    rw [List.foldlM_cons]
    cases hj : s.get? j with
    | none => simp [hj]
    | some c =>
      rcases List.mem_cons.mp hi with rfl | hi
      · rw [hj] at hnone; simp at hnone
      · show List.foldlM _ (acc ++ [c]) tis = none
        exact ih _ i hi hnone

/-- When the input is long enough, `getMixinKey` succeeds with the
table-indexed value. -/
theorem getMixinKey_eq_spec {s : String} (h : 64 ≤ s.data.length) :
    getMixinKey s = some (specMixinKey s) := by
  unfold getMixinKey specMixinKey
  have htab : ∀ i ∈ mixinKeyEncTab, i < 64 := by decide
  rw [getMixinKey_foldlM_some s.data mixinKeyEncTab []
    (fun i hi => lt_of_lt_of_le (htab i hi) h)]
  simp

/-- C2: for every pair of key strings whose concatenation has length at least
64, `getMixinKey` of the concatenation returns exactly the 32-character
string obtained by reading, in table order, the characters of the
concatenation at the positions of the fixed 64-entry permutation table and
keeping the first 32 characters so produced. -/
theorem getMixinKey_spec (img_key sub_key : String)
    (h : 64 ≤ (img_key ++ sub_key).data.length) :
    getMixinKey (img_key ++ sub_key) = some (specMixinKey (img_key ++ sub_key)) ∧
    (specMixinKey (img_key ++ sub_key)).length = 32 := by
  refine ⟨getMixinKey_eq_spec h, ?_⟩
  show (specMixinKey (img_key ++ sub_key)).data.length = 32
  unfold specMixinKey
  simp
  decide

theorem getMixinKey_spec_witness :
    64 ≤ ("abcdefghijklmnopqrstuvwxyzABCDEF" ++ "GHIJKLMNOPQRSTUVWXYZ0123456789+/").data.length ∧
    (getMixinKey ("abcdefghijklmnopqrstuvwxyzABCDEF" ++ "GHIJKLMNOPQRSTUVWXYZ0123456789+/")
        = some (specMixinKey ("abcdefghijklmnopqrstuvwxyzABCDEF" ++ "GHIJKLMNOPQRSTUVWXYZ0123456789+/")) ∧
      (specMixinKey ("abcdefghijklmnopqrstuvwxyzABCDEF" ++ "GHIJKLMNOPQRSTUVWXYZ0123456789+/")).length = 32) :=
  ⟨by decide, getMixinKey_spec "abcdefghijklmnopqrstuvwxyzABCDEF" "GHIJKLMNOPQRSTUVWXYZ0123456789+/" (by decide)⟩

/-- C10: `getMixinKey` performs no out-of-bounds access when the input has
length at least 64 (it returns a result), and on every shorter input it
signals the `IndexError` (modelled as `none`) instead of returning a
result. -/
theorem getMixinKey_bounds (s : String) :
    (64 ≤ s.data.length → (getMixinKey s).isSome = true) ∧
    (s.data.length < 64 → getMixinKey s = none) := by
  constructor
  · intro h
    rw [getMixinKey_eq_spec h]
    rfl
  · intro h
    unfold getMixinKey
    rw [getMixinKey_foldlM_none s.data mixinKeyEncTab [] 63 (by decide)
      (by rw [List.get?_eq_getElem?]; exact List.getElem?_eq_none (by omega))]
    rfl

theorem getMixinKey_bounds_witness :
    (64 ≤ ("abcdefghijklmnopqrstuvwxyzABCDEFGHIJKLMNOPQRSTUVWXYZ0123456789+/" : String).data.length ∧
      (getMixinKey "abcdefghijklmnopqrstuvwxyzABCDEFGHIJKLMNOPQRSTUVWXYZ0123456789+/").isSome = true) ∧
    (("tooShort" : String).data.length < 64 ∧ getMixinKey "tooShort" = none) :=
  ⟨⟨by decide, (getMixinKey_bounds "abcdefghijklmnopqrstuvwxyzABCDEFGHIJKLMNOPQRSTUVWXYZ0123456789+/").1 (by decide)⟩,
   ⟨by decide, (getMixinKey_bounds "tooShort").2 (by decide)⟩⟩

-- ---------------------------------------------------------------------------
-- Dict lemmas
-- ---------------------------------------------------------------------------

/-- Python `d[k]` / `d.get(k)` on the association-list model of a dict. -/
def dictGet {α : Type} (k : String) : List (String × α) → Option α
  | [] => none
  | p :: ps => if p.1 = k then some p.2 else dictGet k ps

theorem dictInsert_of_not_mem {α : Type} (k : String) (v : α) :
    ∀ (l : List (String × α)), k ∉ l.map Prod.fst → dictInsert k v l = l ++ [(k, v)] := by
  intro l
  induction l with
  | nil => intro _; rfl
  | cons p ps ih =>
    intro h
    simp only [List.map_cons, List.mem_cons, not_or] at h
    have h1 : ¬ p.1 = k := fun hh => h.1 (Eq.symm hh)
    simp only [dictInsert, if_neg h1, List.cons_append]
    rw [ih h.2]

theorem mem_dictInsert {α : Type} {kv : String × α} {k : String} {v : α} :
    ∀ {l : List (String × α)}, kv ∈ dictInsert k v l → kv ∈ l ∨ kv = (k, v) := by
  intro l
  induction l with
  | nil => intro h; right; simpa [dictInsert] using h
  | cons p ps ih =>
    intro h
    by_cases hp : p.1 = k
    · simp only [dictInsert, if_pos hp] at h
      rcases List.mem_cons.mp h with h | h
      · right; exact h
      · left; exact List.mem_cons.mpr (Or.inr h)
    · simp only [dictInsert, if_neg hp] at h
      rcases List.mem_cons.mp h with h | h
      · left; exact List.mem_cons.mpr (Or.inl h)
      · rcases ih h with h | h
        · left; exact List.mem_cons.mpr (Or.inr h)
        · right; exact h

theorem dictGet_dictInsert_self {α : Type} (k : String) (v : α) :
    ∀ (l : List (String × α)), dictGet k (dictInsert k v l) = some v := by
  intro l
  induction l with
  | nil => simp [dictInsert, dictGet]
  | cons p ps ih =>
    by_cases hp : p.1 = k
    · simp [dictInsert, if_pos hp, dictGet]
    · simp only [dictInsert, if_neg hp, dictGet]
      exact ih

theorem dictGet_dictInsert_ne {α : Type} {k2 k : String} (v : α) (hne : k2 ≠ k) :
    ∀ (l : List (String × α)), dictGet k2 (dictInsert k v l) = dictGet k2 l := by
  intro l
  have h1 : ¬ k = k2 := fun hh => hne (Eq.symm hh)
  induction l with
  | nil => simp [dictInsert, dictGet, h1]
  | cons p ps ih =>
    by_cases hp : p.1 = k
    · simp [dictInsert, if_pos hp, dictGet, h1, hp]
    · simp only [dictInsert, if_neg hp, dictGet]
      rw [ih]

theorem mem_keys_dictInsert {α : Type} {x k : String} (v : α) :
    ∀ (l : List (String × α)),
      (x ∈ (dictInsert k v l).map Prod.fst ↔ x ∈ l.map Prod.fst ∨ x = k) := by
  intro l
  induction l with
  | nil => simp [dictInsert]
  | cons p ps ih =>
    by_cases hp : p.1 = k
    · have e : dictInsert k v (p :: ps) = (k, v) :: ps := by simp [dictInsert, hp]
      rw [e, List.map_cons, List.map_cons, hp]
      simp only [List.mem_cons]
      tauto
    · have e : dictInsert k v (p :: ps) = p :: dictInsert k v ps := by
        simp [dictInsert, hp]
      rw [e, List.map_cons, List.map_cons]
      simp only [List.mem_cons, ih]
      tauto

theorem nodup_keys_dictInsert {α : Type} (k : String) (v : α) :
    ∀ (l : List (String × α)), (l.map Prod.fst).Nodup →
      ((dictInsert k v l).map Prod.fst).Nodup := by
  intro l
  induction l with
  | nil => intro _; simp [dictInsert]
  | cons p ps ih =>
    intro h
    rw [List.map_cons, List.nodup_cons] at h
    by_cases hp : p.1 = k
    · simp only [dictInsert, if_pos hp, List.map_cons, List.nodup_cons]
      exact ⟨hp ▸ h.1, h.2⟩
    · simp only [dictInsert, if_neg hp, List.map_cons, List.nodup_cons]
      refine ⟨fun hmem => ?_, ih h.2⟩
      rcases (mem_keys_dictInsert v ps).mp hmem with hmem | hmem
      · exact h.1 hmem
      · exact hp (hmem ▸ rfl)

theorem map_if_id {α : Type} {k : String} (v : α) :
    ∀ (l : List (String × α)), k ∉ l.map Prod.fst →
      l.map (fun kv => if kv.1 = k then (k, v) else kv) = l := by
  intro l
  induction l with
  | nil => intro _; rfl
  | cons p ps ih =>
    intro h
    simp only [List.map_cons, List.mem_cons, not_or] at h
    rw [List.map_cons, if_neg (fun hh => h.1 hh.symm), ih h.2]

theorem dictInsert_of_mem_nodup {α : Type} (k : String) (v : α) :
    ∀ (l : List (String × α)), (l.map Prod.fst).Nodup → k ∈ l.map Prod.fst →
      dictInsert k v l = l.map (fun kv => if kv.1 = k then (k, v) else kv) := by
  intro l
  induction l with
  | nil => intro _ hm; simp at hm
  | cons p ps ih =>
    intro hn hm
    rw [List.map_cons, List.nodup_cons] at hn
    by_cases hp : p.1 = k
    · simp only [dictInsert, if_pos hp, List.map_cons, if_pos hp]
      rw [map_if_id v ps (hp ▸ hn.1)]
    · simp only [dictInsert, if_neg hp, List.map_cons, if_neg hp]
      rcases List.mem_cons.mp hm with hm | hm
      · exact absurd hm.symm hp
      · rw [ih hn.2 hm]

theorem dictInsert_mapVal {α β : Type} (f : α → β) (k : String) (v : α) :
    ∀ (l : List (String × α)),
      (dictInsert k v l).map (fun kv => (kv.1, f kv.2))
        = dictInsert k (f v) (l.map (fun kv => (kv.1, f kv.2))) := by
  intro l
  induction l with
  | nil => rfl
  | cons p ps ih =>
    by_cases hp : p.1 = k
    · have e : dictInsert k v (p :: ps) = (k, v) :: ps := by simp [dictInsert, hp]
      rw [e, List.map_cons, List.map_cons]
      simp [dictInsert, hp]
    · have e : dictInsert k v (p :: ps) = p :: dictInsert k v ps := by
        simp [dictInsert, hp]
      rw [e, List.map_cons, List.map_cons]
      simp [dictInsert, hp, ih]

theorem map_fst_mapVal {α β : Type} (f : α → β) (l : List (String × α)) :
    (l.map (fun kv => (kv.1, f kv.2))).map Prod.fst = l.map Prod.fst := by
  rw [List.map_map]
  rfl

-- ---------------------------------------------------------------------------
-- C9: the caller-visible effect of encWbi on its argument dict
-- ---------------------------------------------------------------------------

/-- C9 counterexample: the claim says the caller mapping holds exactly the
same keys and values after `encWbi` as before, but line 25 of the source
injects `wts` into the caller dict itself: after a successful call (the
mixing key derives fine from these 64 characters of keys) the caller dict is
observably different. -/
theorem encWbi_mutates_caller_counterexample :
    encWbiCaller [("foo", Val.vStr "bar")] 1728000000 ≠ [("foo", Val.vStr "bar")] ∧
    (encWbi [("foo", Val.vStr "bar")] "abcdefghijklmnopqrstuvwxyzABCDEF"
        "GHIJKLMNOPQRSTUVWXYZ0123456789+/" 1728000000).isSome = true := by
  constructor
  · decide
  · rfl

/-- C9 (amended): `encWbi` is pure except for reading the wall clock, writing
a log line, and injecting `wts` into the caller mapping: after the call the
caller mapping is the original with `wts` set to the timestamp; every key
other than `wts` keeps exactly its previous value, and when `wts` was not
present the original pairs are all still there, in order, with `wts` appended. -/
theorem encWbi_caller_effect (params : List (String × Val)) (t : Int) :
    encWbiCaller params t = dictInsert "wts" (Val.vInt t) params ∧
    (∀ k, k ≠ "wts" → dictGet k (encWbiCaller params t) = dictGet k params) ∧
    ("wts" ∉ params.map Prod.fst →
      encWbiCaller params t = params ++ [("wts", Val.vInt t)]) := by
  refine ⟨rfl, fun k hk => dictGet_dictInsert_ne _ hk params, fun h => ?_⟩
  exact dictInsert_of_not_mem _ _ params h

theorem encWbi_caller_effect_witness :
    (("foo" : String) ≠ "wts" ∧
      dictGet "foo" (encWbiCaller [("foo", Val.vStr "bar")] 1728000000)
        = dictGet "foo" [("foo", Val.vStr "bar")]) ∧
    (("wts" : String) ∉ ([("foo", Val.vStr "bar")] : List (String × Val)).map Prod.fst ∧
      encWbiCaller [("foo", Val.vStr "bar")] 1728000000
        = [("foo", Val.vStr "bar")] ++ [("wts", Val.vInt 1728000000)]) :=
  ⟨⟨by decide, (encWbi_caller_effect [("foo", Val.vStr "bar")] 1728000000).2.1 "foo" (by decide)⟩,
   ⟨by decide, (encWbi_caller_effect [("foo", Val.vStr "bar")] 1728000000).2.2 (by decide)⟩⟩

-- ---------------------------------------------------------------------------
-- C1: the canonical signing description
-- ---------------------------------------------------------------------------

/-- The canonical query string as the spec words it: all parameters with
`wts` injected, every value stringified and stripped of the characters of
`badChars`, sorted by key in ascending lexical order, and percent-encoded
with `quote` semantics. (The stripping is applied before sorting here; the
code sorts first — the C1 theorem proves both readings agree.) -/
def specCanonicalQuery (params : List (String × Val)) (t : Int) : String :=
  urlencode (List.insertionSort itemLe
    ((dictInsert "wts" (Val.vInt t) params).map (fun kv => (kv.1, stripBad kv.2.str))))

theorem encWbiStripped_eq (params : List (String × Val)) (t : Int) :
    encWbiStripped params t
      = List.insertionSort itemLe
          ((dictInsert "wts" (Val.vInt t) params).map (fun kv => (kv.1, stripBad kv.2.str))) := by
  unfold encWbiStripped encWbiSorted
  exact List.map_insertionSort itemLe itemLe _ _ (fun a _ b _ => Iff.rfl)

theorem encWbiQuery_eq_spec (params : List (String × Val)) (t : Int) :
    encWbiQuery params t = specCanonicalQuery params t := by
  unfold encWbiQuery specCanonicalQuery
  rw [encWbiStripped_eq]

/-- C1: for every parameter mapping (a dict: no duplicate keys, and the
reserved names not among them) and every pair of keys long enough for the
mixing key, `encWbi` returns the mapping extended with `wts` holding the
timestamp and `w_rid` holding the MD5 hex digest of the canonical query
string concatenated with the mixing key, where the canonical query sorts all
parameters (including `wts`) by key ascending, strips `badChars` from every
stringified value, and percent-encodes with `quote` semantics; in particular
signing `foo ↦ bar!` yields the query `foo=bar&wts=...`, and a space encodes
as `%20`, not `+`. -/
theorem encWbi_canonical_signing (params : List (String × Val))
    (img_key sub_key : String) (t : Int)
    (h64 : 64 ≤ (img_key ++ sub_key).data.length)
    (hw : "wts" ∉ params.map Prod.fst)
    (hr : "w_rid" ∉ params.map Prod.fst) :
    ∃ res, encWbi params img_key sub_key t = some res ∧
      res.Perm (("w_rid", md5Hex (strBytes (specCanonicalQuery params t
          ++ specMixinKey (img_key ++ sub_key)))) ::
        ("wts", stripBad (toString t)) ::
        params.map (fun kv => (kv.1, stripBad kv.2.str))) ∧
      encWbiQuery params t = specCanonicalQuery params t ∧
      encWbiQuery [("foo", Val.vStr "bar!")] 1728000000 = "foo=bar&wts=1728000000" ∧
      quote " " = "%20" ∧ quote " " ≠ "+" := by
  have hkeys : "w_rid" ∉ (encWbiStripped params t).map Prod.fst := by
    rw [encWbiStripped_eq]
    intro hmem
    have hmem2 := ((List.perm_insertionSort itemLe
      ((dictInsert "wts" (Val.vInt t) params).map
        (fun kv => (kv.1, stripBad kv.2.str)))).map Prod.fst).mem_iff.mp hmem
    have e : (((dictInsert "wts" (Val.vInt t) params).map
          (fun kv => (kv.1, stripBad kv.2.str))).map Prod.fst)
        = (dictInsert "wts" (Val.vInt t) params).map Prod.fst :=
      map_fst_mapVal (fun v : Val => stripBad v.str) _
    rw [e] at hmem2
    rcases (mem_keys_dictInsert (Val.vInt t) params).mp hmem2 with h | h
    · exact hr h
    · exact absurd h (by decide)
  refine ⟨dictInsert "w_rid"
      (md5Hex (strBytes (encWbiQuery params t ++ specMixinKey (img_key ++ sub_key))))
      (encWbiStripped params t), ?_, ?_, encWbiQuery_eq_spec params t, by decide,
      by decide, by decide⟩
  · unfold encWbi
    rw [getMixinKey_eq_spec h64]
    rfl
  · rw [encWbiQuery_eq_spec, dictInsert_of_not_mem _ _ _ hkeys]
    refine (List.perm_append_singleton _ _).trans (List.Perm.cons _ ?_)
    unfold encWbiStripped encWbiSorted
    refine ((List.perm_insertionSort itemLe _).map _).trans ?_
    rw [dictInsert_of_not_mem _ _ _ hw, List.map_append]
    exact List.perm_append_singleton _ _

theorem encWbi_canonical_signing_witness :
    (64 ≤ (("abcdefghijklmnopqrstuvwxyzABCDEF" : String)
        ++ "GHIJKLMNOPQRSTUVWXYZ0123456789+/").data.length ∧
      ("wts" : String) ∉ ([("keyword", Val.vStr "hello world!")]
        : List (String × Val)).map Prod.fst ∧
      ("w_rid" : String) ∉ ([("keyword", Val.vStr "hello world!")]
        : List (String × Val)).map Prod.fst) ∧
    (∃ res, encWbi [("keyword", Val.vStr "hello world!")]
        "abcdefghijklmnopqrstuvwxyzABCDEF" "GHIJKLMNOPQRSTUVWXYZ0123456789+/"
        1728000000 = some res ∧
      res.Perm (("w_rid", md5Hex (strBytes
          (specCanonicalQuery [("keyword", Val.vStr "hello world!")] 1728000000
            ++ specMixinKey ("abcdefghijklmnopqrstuvwxyzABCDEF"
              ++ "GHIJKLMNOPQRSTUVWXYZ0123456789+/")))) ::
        ("wts", stripBad (toString (1728000000 : Int))) ::
        ([("keyword", Val.vStr "hello world!")] : List (String × Val)).map
          (fun kv => (kv.1, stripBad kv.2.str))) ∧
      encWbiQuery [("keyword", Val.vStr "hello world!")] 1728000000
        = specCanonicalQuery [("keyword", Val.vStr "hello world!")] 1728000000 ∧
      encWbiQuery [("foo", Val.vStr "bar!")] 1728000000 = "foo=bar&wts=1728000000" ∧
      quote " " = "%20" ∧ quote " " ≠ "+") :=
  ⟨⟨by decide, by decide, by decide⟩,
    encWbi_canonical_signing [("keyword", Val.vStr "hello world!")]
      "abcdefghijklmnopqrstuvwxyzABCDEF" "GHIJKLMNOPQRSTUVWXYZ0123456789+/"
      1728000000 (by decide) (by decide) (by decide)⟩

-- ---------------------------------------------------------------------------
-- C3: what the digest does and does not depend on
-- ---------------------------------------------------------------------------

theorem dictInsert_perm {α : Type} (k : String) (v : α) {p1 p2 : List (String × α)}
    (hp : p1.Perm p2) (hn : (p1.map Prod.fst).Nodup) :
    (dictInsert k v p1).Perm (dictInsert k v p2) := by
  by_cases hm : k ∈ p1.map Prod.fst
  · rw [dictInsert_of_mem_nodup k v p1 hn hm,
      dictInsert_of_mem_nodup k v p2 ((hp.map Prod.fst).nodup_iff.mp hn)
        ((hp.map Prod.fst).mem_iff.mp hm)]
    exact hp.map _
  · rw [dictInsert_of_not_mem k v p1 hm,
      dictInsert_of_not_mem k v p2 (fun hmem => hm ((hp.map Prod.fst).mem_iff.mpr hmem))]
    exact hp.append_right _

theorem insertionSort_perm_eq {α : Type} {p1 p2 : List (String × α)} (hp : p1.Perm p2)
    (hn : (p1.map Prod.fst).Nodup) :
    List.insertionSort itemLe p1 = List.insertionSort itemLe p2 := by
  apply eq_of_perm_of_sorted_keys
  · exact (List.perm_insertionSort itemLe p1).trans
      (hp.trans (List.perm_insertionSort itemLe p2).symm)
  · exact List.sorted_insertionSort itemLe p1
  · exact List.sorted_insertionSort itemLe p2
  · exact ((List.perm_insertionSort itemLe p1).map Prod.fst).nodup_iff.mpr hn

theorem dictInsert_stripVal (k : String) (v : Val) (l : List (String × Val)) :
    (dictInsert k v l).map (fun kv => (kv.1, stripBad kv.2.str))
      = dictInsert k (stripBad v.str) (l.map (fun kv => (kv.1, stripBad kv.2.str))) :=
  dictInsert_mapVal (fun v : Val => stripBad v.str) k v l

theorem encWbi_congr_stripped {p1 p2 : List (String × Val)} (img_key sub_key : String)
    (t : Int) (h : encWbiStripped p1 t = encWbiStripped p2 t) :
    encWbi p1 img_key sub_key t = encWbi p2 img_key sub_key t := by
  unfold encWbi encWbiQuery
  rw [h]

/-- C3 counterexample: the claim says changing any parameter value changes
the digest, but changing the value `bar` to `bar!` changes the mapping while
the whole signed result — digest included — stays identical, because the
stripping step erases the difference before hashing (and the call does
succeed: the result is a `some`). -/
theorem encWbi_value_change_same_digest :
    encWbi [("foo", Val.vStr "bar")] "abcdefghijklmnopqrstuvwxyzABCDEF"
        "GHIJKLMNOPQRSTUVWXYZ0123456789+/" 1728000000
      = encWbi [("foo", Val.vStr "bar!")] "abcdefghijklmnopqrstuvwxyzABCDEF"
        "GHIJKLMNOPQRSTUVWXYZ0123456789+/" 1728000000 ∧
    ([("foo", Val.vStr "bar")] : List (String × Val)) ≠ [("foo", Val.vStr "bar!")] ∧
    (encWbi [("foo", Val.vStr "bar")] "abcdefghijklmnopqrstuvwxyzABCDEF"
        "GHIJKLMNOPQRSTUVWXYZ0123456789+/" 1728000000).isSome = true := by
  refine ⟨?_, by decide, by rfl⟩
  exact encWbi_congr_stripped _ _ _ (by decide)

/-- C3 (amended): two calls of `encWbi` on mappings with the same key/value
pairs (in any insertion order) and the same keys and timestamp produce
identical results, digest included; and changing a parameter value leaves
the digest unchanged whenever the change does not alter the value's stripped
stringified form (the characters of `badChars` are removed before hashing). -/
theorem encWbi_digest_invariance :
    (∀ (p1 p2 : List (String × Val)) (img_key sub_key : String) (t : Int),
      p1.Perm p2 → (p1.map Prod.fst).Nodup →
      encWbi p1 img_key sub_key t = encWbi p2 img_key sub_key t) ∧
    (∀ (p1 p2 : List (String × Val)) (img_key sub_key : String) (t : Int),
      p1.map (fun kv => (kv.1, stripBad kv.2.str))
          = p2.map (fun kv => (kv.1, stripBad kv.2.str)) →
      encWbi p1 img_key sub_key t = encWbi p2 img_key sub_key t) := by
  constructor
  · intro p1 p2 img_key sub_key t hp hn
    apply encWbi_congr_stripped
    unfold encWbiStripped encWbiSorted
    rw [insertionSort_perm_eq (dictInsert_perm _ _ hp hn)
      (nodup_keys_dictInsert _ _ p1 hn)]
  · intro p1 p2 img_key sub_key t h
    apply encWbi_congr_stripped
    rw [encWbiStripped_eq, encWbiStripped_eq, dictInsert_stripVal,
      dictInsert_stripVal, h]

theorem encWbi_digest_invariance_witness :
    (([("b", Val.vInt 2), ("a", Val.vStr "x")] : List (String × Val)).Perm
        [("a", Val.vStr "x"), ("b", Val.vInt 2)] ∧
      (([("b", Val.vInt 2), ("a", Val.vStr "x")] : List (String × Val)).map
        Prod.fst).Nodup ∧
      encWbi [("b", Val.vInt 2), ("a", Val.vStr "x")]
          "abcdefghijklmnopqrstuvwxyzABCDEF" "GHIJKLMNOPQRSTUVWXYZ0123456789+/" 5
        = encWbi [("a", Val.vStr "x"), ("b", Val.vInt 2)]
          "abcdefghijklmnopqrstuvwxyzABCDEF" "GHIJKLMNOPQRSTUVWXYZ0123456789+/" 5) ∧
    (([("foo", Val.vStr "bar")] : List (String × Val)).map
        (fun kv => (kv.1, stripBad kv.2.str))
        = ([("foo", Val.vStr "bar(")] : List (String × Val)).map
          (fun kv => (kv.1, stripBad kv.2.str)) ∧
      encWbi [("foo", Val.vStr "bar")]
          "abcdefghijklmnopqrstuvwxyzABCDEF" "GHIJKLMNOPQRSTUVWXYZ0123456789+/" 5
        = encWbi [("foo", Val.vStr "bar(")]
          "abcdefghijklmnopqrstuvwxyzABCDEF" "GHIJKLMNOPQRSTUVWXYZ0123456789+/" 5) :=
  ⟨⟨by decide, by decide,
    encWbi_digest_invariance.1 _ _ _ _ 5 (by decide) (by decide)⟩,
   ⟨by decide, encWbi_digest_invariance.2 _ _ _ _ 5 (by decide)⟩⟩

-- ---------------------------------------------------------------------------
-- C4: the signed output never contains the stripped characters
-- ---------------------------------------------------------------------------

/-- The characters a lowercase hex digest is made of. -/
def hexLowerChars : List Char := "0123456789abcdef".data

/-- The characters an uppercase percent escape is made of. -/
def hexUpperChars : List Char := "0123456789ABCDEF".data

theorem hexLower_mem {n : Nat} (h : n < 16) : hexLower n ∈ hexLowerChars := by
  interval_cases n <;> decide

theorem hexUpper_mem {n : Nat} (h : n < 16) : hexUpper n ∈ hexUpperChars := by
  interval_cases n <;> decide

theorem stripBad_no_bad (s : String) {c : Char} (h : c ∈ (stripBad s).data) :
    c ∉ badChars := by
  have h2 := (List.mem_filter.mp h).2
  simp at h2
  exact h2

theorem md5Hex_chars (msg : List Nat) {c : Char} (h : c ∈ (md5Hex msg).data) :
    c ∈ hexLowerChars := by
  unfold md5Hex at h
  rcases List.mem_flatMap.mp h with ⟨b, _, hc⟩
  unfold byteToHex at hc
  rcases List.mem_cons.mp hc with rfl | hc
  · exact hexLower_mem (Nat.mod_lt _ (by omega))
  · rcases List.mem_cons.mp hc with rfl | hc
    · exact hexLower_mem (Nat.mod_lt _ (by omega))
    · simp at hc

theorem quote_chars (s : String) {c : Char} (h : c ∈ (quote s).data) :
    safeChars.contains c = true ∨ c = Char.ofNat 37 ∨ ∃ n, n < 16 ∧ c = hexUpper n := by
  unfold quote at h
  rcases List.mem_flatMap.mp h with ⟨a, _, hc⟩
  by_cases hs : safeChars.contains a
  · rw [if_pos hs] at hc
    rcases List.mem_cons.mp hc with rfl | hc
    · left; exact hs
    · simp at hc
  · rw [if_neg hs] at hc
    rcases List.mem_flatMap.mp hc with ⟨b, _, hcc⟩
    unfold pctEncodeByte at hcc
    rcases List.mem_cons.mp hcc with rfl | hcc
    · right; left; rfl
    · rcases List.mem_cons.mp hcc with rfl | hcc
      · right; right; exact ⟨b / 16 % 16, Nat.mod_lt _ (by omega), rfl⟩
      · rcases List.mem_cons.mp hcc with rfl | hcc
        · right; right; exact ⟨b % 16, Nat.mod_lt _ (by omega), rfl⟩
        · simp at hcc

theorem safe_not_bad {c : Char} (h : safeChars.contains c = true) : c ∉ badChars := by
  have h2 : c ∈ safeChars := by simpa using h
  have hall : ∀ x ∈ safeChars, x ∉ badChars := by decide
  exact hall c h2

theorem hexLowerChars_not_bad : ∀ x ∈ hexLowerChars, x ∉ badChars := by decide

theorem hexUpper_not_bad {n : Nat} (h : n < 16) : hexUpper n ∉ badChars := by
  have hall : ∀ x ∈ hexUpperChars, x ∉ badChars := by decide
  exact hall _ (hexUpper_mem h)

theorem quote_no_bad (s : String) {c : Char} (h : c ∈ (quote s).data) :
    c ∉ badChars := by
  rcases quote_chars s h with h | h | ⟨n, hn, rfl⟩
  · exact safe_not_bad h
  · rw [h]; decide
  · exact hexUpper_not_bad hn

/-- C4: whatever characters the input values contain, no value of the dict
returned by `encWbi` contains any of the characters `!`, the apostrophe,
`(`, `)`, `*`, and no encoded value position of the canonical query string
it signs contains any of them either. -/
theorem encWbi_no_banned_chars (params : List (String × Val))
    (img_key sub_key : String) (t : Int)
    (h64 : 64 ≤ (img_key ++ sub_key).data.length) :
    (∀ kv ∈ (encWbi params img_key sub_key t).getD [],
      ∀ c ∈ kv.2.data, c ∉ badChars) ∧
    (∀ kv ∈ encWbiStripped params t, ∀ c ∈ (quote kv.2).data, c ∉ badChars) := by
  constructor
  · intro kv hkv c hc
    have henc : encWbi params img_key sub_key t
        = some (dictInsert "w_rid" (md5Hex (strBytes (encWbiQuery params t
            ++ specMixinKey (img_key ++ sub_key)))) (encWbiStripped params t)) := by
      unfold encWbi
      rw [getMixinKey_eq_spec h64]
      rfl
    rw [henc] at hkv
    simp only [Option.getD_some] at hkv
    rcases mem_dictInsert hkv with hkv | rfl
    · rw [encWbiStripped_eq] at hkv
      have hkv2 := (List.perm_insertionSort itemLe _).mem_iff.mp hkv
      rcases List.mem_map.mp hkv2 with ⟨orig, _, rfl⟩
      exact stripBad_no_bad _ hc
    · exact hexLowerChars_not_bad c (md5Hex_chars _ hc)
  · intro kv hkv c hc
    rw [encWbiStripped_eq] at hkv
    have hkv2 := (List.perm_insertionSort itemLe _).mem_iff.mp hkv
    rcases List.mem_map.mp hkv2 with ⟨orig, _, rfl⟩
    exact quote_no_bad _ hc

theorem encWbi_no_banned_chars_witness :
    64 ≤ (("abcdefghijklmnopqrstuvwxyzABCDEF" : String)
        ++ "GHIJKLMNOPQRSTUVWXYZ0123456789+/").data.length ∧
    ((∀ kv ∈ (encWbi [("foo", Val.vStr "bar!(x)")]
          "abcdefghijklmnopqrstuvwxyzABCDEF" "GHIJKLMNOPQRSTUVWXYZ0123456789+/"
          1728000000).getD [],
        ∀ c ∈ kv.2.data, c ∉ badChars) ∧
      (∀ kv ∈ encWbiStripped [("foo", Val.vStr "bar!(x)")] 1728000000,
        ∀ c ∈ (quote kv.2).data, c ∉ badChars)) :=
  ⟨by decide, encWbi_no_banned_chars [("foo", Val.vStr "bar!(x)")]
    "abcdefghijklmnopqrstuvwxyzABCDEF" "GHIJKLMNOPQRSTUVWXYZ0123456789+/"
    1728000000 (by decide)⟩

-- ---------------------------------------------------------------------------
-- The client component: session state, persisted store, response handling.
-- Every handler models one public operation of `BiliDownloader` from the
-- point its HTTP response arrives (the request building is not needed by any
-- claim); the response is passed in as data.
-- ---------------------------------------------------------------------------

/-- A parsed JSON value, the shape of response bodies and of the persisted
config document. -/
inductive JVal where
  | jNull
  | jInt (n : Int)
  | jStr (s : String)
  | jArr (xs : List JVal)
  | jObj (fields : List (String × JVal))

/-- Python `obj["key"]` on a parsed JSON value: `none` is the `KeyError` of a
missing key or the `TypeError` of indexing a non-object. -/
def JVal.getField : JVal → String → Option JVal
  | .jObj fields, k => dictGet k fields
  | _, _ => none

/-- A string payload, or the `AttributeError` of calling a string method on a
non-string. -/
def JVal.asStr : JVal → Option String
  | .jStr s => some s
  | _ => none

/-- A list payload, or the `TypeError` of iterating a non-list. -/
def JVal.asArr : JVal → Option (List JVal)
  | .jArr xs => some xs
  | _ => none

/-- An integer payload. -/
def JVal.asInt : JVal → Option Int
  | .jInt n => some n
  | _ => none

/-- Python `v != 0` on the JSON `code` field: only the integer `0` compares
equal to `0`. -/
def JVal.neZero : JVal → Bool
  | .jInt 0 => false
  | _ => true

/-- Python `s.replace(pat, rep)` on char lists: replace every non-overlapping
occurrence, scanning left to right (the patterns used by the source are
never empty). The fuel argument only drives structural recursion: each step
consumes at least one character, so fuel equal to the length of the scanned
list never runs out. -/
def replaceListAux (pat rep : List Char) : Nat → List Char → List Char
  | _, [] => []
  | 0, l => l
  | fuel + 1, c :: cs =>
    if pat ≠ [] ∧ pat.isPrefixOf (c :: cs) then
      rep ++ replaceListAux pat rep fuel ((c :: cs).drop pat.length)
    else c :: replaceListAux pat rep fuel cs

/-- Python `s.replace(pat, rep)`. -/
def strReplace (s pat rep : String) : String :=
  String.mk (replaceListAux pat.data rep.data s.data.length s.data)

/-- The session state of `BiliDownloader` together with the persisted store:
`cookies` is `self.cookies`, the two keys and `last_update` the signing-key
state, and `store` the parsed content of the config file that `flushConfig`
reads and rewrites. -/
structure Session where
  cookies : List (String × String)
  img_key : String
  sub_key : String
  last_update : Int
  store : List (String × JVal)

/-- An HTTP response as the handlers observe it: status code, response
cookies, and the parsed JSON body. -/
structure HttpResponse where
  status_code : Nat
  resp_cookies : List (String × String)
  body : JVal

/-- src/bilibili.py lines 106-114: read the stored document, set every given
key, and write the document back. -/
def flushConfig (s : Session) (kv : List (String × JVal)) : Session :=
  { s with store := dictUpdate s.store kv }

/-- The JSON object under which the cookie dict is persisted. -/
def cookiesJson (cs : List (String × String)) : JVal :=
  .jObj (cs.map (fun p => (p.1, .jStr p.2)))

/-- Python `self.cookies.update(response.cookies)`. -/
def updateCookies (s : Session) (resp : HttpResponse) : Session :=
  { s with cookies := dictUpdate s.cookies resp.resp_cookies }

/-- The projection of one search result (src/bilibili.py lines 147-152),
highlight markup stripped from the title. -/
def projectSearchResult (r : JVal) : Option JVal := do
  let title ← (← r.getField "title").asStr
  let bvid ← r.getField "bvid"
  let author ← r.getField "author"
  let description ← r.getField "description"
  pure (.jObj [("title", .jStr (strReplace
      (strReplace title "<em class=\"keyword\">" "") "</em>" "")),
    ("bvid", bvid), ("author", author), ("description", description)])

/-- src/bilibili.py lines 116-152 from the point the response arrives: on
non-200 log and return `[]`; otherwise merge the response cookies, flush
them, and project `data.result`. `none` models an uncaught exception while
projecting (the session keeps the mutations made before it was raised); the
file dump of the raw body is out of scope. -/
def search_by_title_handle (s : Session) (resp : HttpResponse) :
    Session × Option JVal :=
  if resp.status_code ≠ 200 then (s, some (.jArr []))
  else
    let s1 := updateCookies s resp
    let s2 := flushConfig s1 [("cookies", cookiesJson s1.cookies)]
    (s2, do
      let data ← resp.body.getField "data"
      let results ← (← data.getField "result").asArr
      let mapped ← results.mapM projectSearchResult
      pure (.jArr mapped))

/-- One page entry of the page list (src/bilibili.py lines 175-182). -/
def projectPage (p : JVal) : Option JVal := do
  let cid ← p.getField "cid"
  let page ← p.getField "page"
  let part ← p.getField "part"
  let duration ← p.getField "duration"
  pure (.jObj [("cid", cid), ("page", page), ("part", part),
    ("duration", duration)])

/-- src/bilibili.py lines 154-183 from the response: on non-200 the code
returns the empty string (although the function is annotated `->list`); on
200 it merges the response cookies into the session but — unlike the other
four operations — never flushes them; nonzero `code` (whose `message` the
log line reads) returns `[]`; otherwise the projected page list. -/
def get_pages_cid_handle (s : Session) (resp : HttpResponse) :
    Session × Option JVal :=
  if resp.status_code ≠ 200 then (s, some (.jStr ""))
  else
    let s1 := updateCookies s resp
    (s1, do
      let code ← resp.body.getField "code"
      if code.neZero then
        let _ ← resp.body.getField "message"
        pure (.jArr [])
      else
        let pages ← (← resp.body.getField "data").asArr
        let page ← pages.mapM projectPage
        pure (.jArr page))

/-- Descending order on (bandwidth, item) pairs:
`sorted(..., key=lambda x: x["bandwidth"], reverse=True)`. Python sort is
stable, so equal bandwidths keep the original order, as `insertionSort`
does. -/
def bwGe (a b : Int × JVal) : Prop := b.1 ≤ a.1

instance : DecidableRel bwGe :=
  fun a b => inferInstanceAs (Decidable (_ ≤ _))

/-- src/bilibili.py lines 186-215 from the response: on non-200 return the
empty string; else merge and flush cookies, sort `data.dash.audio` by
bandwidth descending, return the empty string if the list is empty and the
`baseUrl` of its first element otherwise. -/
def get_audio_link_handle (s : Session) (resp : HttpResponse) :
    Session × Option JVal :=
  if resp.status_code ≠ 200 then (s, some (.jStr ""))
  else
    let s1 := updateCookies s resp
    let s2 := flushConfig s1 [("cookies", cookiesJson s1.cookies)]
    (s2, do
      let audio ← (← (← (← resp.body.getField "data").getField "dash").getField
        "audio").asArr
      let keyed ← audio.mapM (fun it =>
        ((it.getField "bandwidth").bind JVal.asInt).map (fun b => (b, it)))
      match List.insertionSort bwGe keyed with
      | [] => pure (.jStr "")
      | top :: _ => top.2.getField "baseUrl")

/-- src/bilibili.py lines 217-244 from the response: on non-200 return the
empty string; else merge and flush cookies; nonzero `code` (whose `message`
the log line reads) returns `None`; otherwise the raw `data` payload. -/
def get_favorites_handle (s : Session) (resp : HttpResponse) :
    Session × Option JVal :=
  if resp.status_code ≠ 200 then (s, some (.jStr ""))
  else
    let s1 := updateCookies s resp
    let s2 := flushConfig s1 [("cookies", cookiesJson s1.cookies)]
    (s2, do
      let code ← resp.body.getField "code"
      if code.neZero then
        let _ ← resp.body.getField "message"
        pure .jNull
      else resp.body.getField "data")

/-- src/bilibili.py lines 246-271 from the response: identical handling to
`get_favorites_handle`. -/
def get_user_favs_handle (s : Session) (resp : HttpResponse) :
    Session × Option JVal :=
  if resp.status_code ≠ 200 then (s, some (.jStr ""))
  else
    let s1 := updateCookies s resp
    let s2 := flushConfig s1 [("cookies", cookiesJson s1.cookies)]
    (s2, do
      let code ← resp.body.getField "code"
      if code.neZero then
        let _ ← resp.body.getField "message"
        pure .jNull
      else resp.body.getField "data")

/-- The first block of `check_agent` (src/bilibili.py lines 86-94): when no
cookies are present, bootstrap them from the homepage response and flush. -/
def check_agent_cookies (s : Session) (homeCookies : List (String × String)) :
    Session :=
  if s.cookies.length = 0 then
    let sc := { s with cookies := homeCookies }
    flushConfig sc [("cookies", cookiesJson sc.cookies)]
  else s

/-- The second block of `check_agent` (src/bilibili.py lines 97-104): when a
key is empty or the last refresh is older than a day, store the freshly
fetched keys and flush them. -/
def check_agent_keys (s : Session) (fetchedImg fetchedSub : String) (now : Int) :
    Session :=
  if s.img_key = "" ∨ s.sub_key = "" ∨ 86400 < now - s.last_update then
    let s2 := { s with
      img_key := fetchedImg
      sub_key := fetchedSub
      last_update := now }
    flushConfig s2 [("img_key", .jStr fetchedImg), ("sub_key", .jStr fetchedSub),
      ("last_update", .jInt now)]
  else s

/-- src/bilibili.py lines 85-104, with the network interactions supplied as
arguments: the homepage response cookies, the keys fetched from the
navigation endpoint, and the current time. -/
def check_agent (s : Session) (homeCookies : List (String × String))
    (fetchedImg fetchedSub : String) (now : Int) : Session :=
  check_agent_keys (check_agent_cookies s homeCookies) fetchedImg fetchedSub now

-- ---------------------------------------------------------------------------
-- C5: behavior on non-success HTTP status
-- ---------------------------------------------------------------------------

/-- A minimal concrete session for the evaluation theorems. -/
def sessionEx : Session := ⟨[], "", "", 0, []⟩

/-- A concrete HTTP 500 response. -/
def resp500 : HttpResponse := ⟨500, [("c", "v")], .jNull⟩

/-- C5: the claim says that on non-success HTTP status each operation
returns the neutral value of its declared result type — `[]` for search and
get-pages, `""` for get-audio-link, `None` for the two favorites
operations. Evaluating the five handlers on an HTTP 500 response exhibits
the divergence: get_pages_cid returns the empty string although the source
annotates it `->list`, and both favorites operations return the empty
string where their own application-error path returns `None`. -/
theorem http_failure_neutral_eval :
    (search_by_title_handle sessionEx resp500).2 = some (.jArr []) ∧
    (get_pages_cid_handle sessionEx resp500).2 = some (.jStr "") ∧
    (get_audio_link_handle sessionEx resp500).2 = some (.jStr "") ∧
    (get_favorites_handle sessionEx resp500).2 = some (.jStr "") ∧
    (get_user_favs_handle sessionEx resp500).2 = some (.jStr "") ∧
    JVal.jStr "" ≠ JVal.jArr [] ∧ JVal.jStr "" ≠ JVal.jNull :=
  ⟨rfl, rfl, rfl, rfl, rfl, fun h => JVal.noConfusion h, fun h => JVal.noConfusion h⟩

-- ---------------------------------------------------------------------------
-- C6: behavior on a nonzero application status code
-- ---------------------------------------------------------------------------

/-- A 200 response whose body carries a nonzero application code and still a
`data.result` payload. -/
def respCodeNonzero : HttpResponse :=
  ⟨200, [], .jObj [("code", .jInt (-400)), ("message", .jStr "error"),
    ("data", .jObj [("result", .jArr [.jObj [("title", .jStr "T"),
      ("bvid", .jStr "BV1"), ("author", .jStr "A"),
      ("description", .jStr "D")]])])]⟩

/-- C6 counterexample: search_by_title never inspects the application status
code: on a 200 response whose body carries `code = -400` it still projects
the payload instead of returning its neutral result, contradicting the claim
that every one of the five operations checks the code field. -/
theorem search_ignores_code_counterexample :
    respCodeNonzero.body.getField "code" = some (.jInt (-400)) ∧
    (JVal.jInt (-400)).neZero = true ∧
    (search_by_title_handle sessionEx respCodeNonzero).2
      = some (.jArr [.jObj [("title", .jStr "T"), ("bvid", .jStr "BV1"),
          ("author", .jStr "A"), ("description", .jStr "D")]]) ∧
    (search_by_title_handle sessionEx respCodeNonzero).2 ≠ some (.jArr []) := by
  have e : (search_by_title_handle sessionEx respCodeNonzero).2
      = some (.jArr [.jObj [("title", .jStr "T"), ("bvid", .jStr "BV1"),
          ("author", .jStr "A"), ("description", .jStr "D")]]) := rfl
  refine ⟨rfl, rfl, e, ?_⟩
  rw [e]
  intro h
  injection h with h1
  injection h1 with h2
  exact List.noConfusion h2

/-- C6 (amended): for get-pages, get-favorites and get-user-favorites, a
success response whose JSON body carries a nonzero application status code
(and the `message` field the log line reads) yields the neutral result —
`[]` for get-pages, `None` for both favorites operations — instead of the
payload, without raising; search-by-title and get-audio-link do not inspect
the code field at all. -/
theorem code_nonzero_neutral (s : Session) (resp : HttpResponse) (code : JVal)
    (h200 : resp.status_code = 200)
    (hcode : resp.body.getField "code" = some code)
    (hnz : code.neZero = true)
    (hmsg : (resp.body.getField "message").isSome = true) :
    (get_pages_cid_handle s resp).2 = some (.jArr []) ∧
    (get_favorites_handle s resp).2 = some .jNull ∧
    (get_user_favs_handle s resp).2 = some .jNull := by
  obtain ⟨msg, hmsg2⟩ := Option.isSome_iff_exists.mp hmsg
  refine ⟨?_, ?_, ?_⟩ <;>
    simp [get_pages_cid_handle, get_favorites_handle, get_user_favs_handle,
      updateCookies, flushConfig, h200, hcode, hnz, hmsg2]

/-- A 200 response carrying only a nonzero code and a message. -/
def respFavCode : HttpResponse :=
  ⟨200, [], .jObj [("code", .jInt (-101)), ("message", .jStr "not login")]⟩

theorem code_nonzero_neutral_witness :
    (respFavCode.status_code = 200 ∧
      respFavCode.body.getField "code" = some (.jInt (-101)) ∧
      (JVal.jInt (-101)).neZero = true ∧
      (respFavCode.body.getField "message").isSome = true) ∧
    ((get_pages_cid_handle sessionEx respFavCode).2 = some (.jArr []) ∧
      (get_favorites_handle sessionEx respFavCode).2 = some .jNull ∧
      (get_user_favs_handle sessionEx respFavCode).2 = some .jNull) :=
  ⟨⟨rfl, rfl, rfl, rfl⟩,
    code_nonzero_neutral sessionEx respFavCode (.jInt (-101)) rfl rfl rfl rfl⟩

-- ---------------------------------------------------------------------------
-- C7: what gets persisted, and when
-- ---------------------------------------------------------------------------

theorem flushed_op_facts (s : Session) (resp : HttpResponse) (s2 : Session)
    (h : s2 = flushConfig (updateCookies s resp)
      [("cookies", cookiesJson (updateCookies s resp).cookies)]) :
    s2.cookies = (updateCookies s resp).cookies ∧
    dictGet "cookies" s2.store = some (cookiesJson (updateCookies s resp).cookies) ∧
    (∀ k, k ≠ "cookies" → dictGet k s2.store = dictGet k s.store) := by
  subst h
  exact ⟨rfl, dictGet_dictInsert_self _ _ _,
    fun k hk => dictGet_dictInsert_ne _ hk _⟩

theorem dictGet_dictUpdate_not_mem {α : Type} {k : String}
    {kv : List (String × α)} (hk : k ∉ kv.map Prod.fst) :
    ∀ (st : List (String × α)), dictGet k (dictUpdate st kv) = dictGet k st := by
  induction kv with
  | nil => intro st; rfl
  | cons p ps ih =>
    intro st
    simp only [List.map_cons, List.mem_cons, not_or] at hk
    show dictGet k (dictUpdate (dictInsert p.1 p.2 st) ps) = dictGet k st
    rw [ih hk.2, dictGet_dictInsert_ne _ hk.1 st]

/-- A 200 page-list response carrying a fresh cookie and a valid body. -/
def respPagesOk : HttpResponse :=
  ⟨200, [("buvid", "Z123")], .jObj [("code", .jInt 0),
    ("data", .jArr [.jObj [("cid", .jInt 42), ("page", .jInt 1),
      ("part", .jStr "p1"), ("duration", .jInt 60)]])]⟩

/-- C7 counterexample: get_pages_cid merges the response cookies into the
session but never flushes them: after a successful call with a new cookie
the session state holds the cookie while the persisted store still has no
cookies entry (starting from an empty store), so this mutation of the
session cookies is not persisted before the operation returns. -/
theorem get_pages_cid_no_flush_counterexample :
    (get_pages_cid_handle sessionEx respPagesOk).1.cookies = [("buvid", "Z123")] ∧
    dictGet "cookies" (get_pages_cid_handle sessionEx respPagesOk).1.store = none ∧
    (get_pages_cid_handle sessionEx respPagesOk).1.store = [] ∧
    ((get_pages_cid_handle sessionEx respPagesOk).2).isSome = true :=
  ⟨rfl, rfl, rfl, rfl⟩

/-- C7 (amended): `flushConfig` merges only the given fields into the stored
document, leaving every other stored field unchanged; on success responses,
search-by-title, get-audio-link, get-favorites and get-user-favorites merge
the response cookies into the session and immediately persist exactly them
under the `cookies` field of the store; the key refresh of `check_agent`
persists the fresh keys and refresh timestamp the same way. The exception
the counterexample forces: get-pages-for-video merges response cookies into
the session without persisting them. -/
theorem mutation_flush_behavior :
    (∀ (s : Session) (kv : List (String × JVal)) (k : String),
      k ∉ kv.map Prod.fst →
      dictGet k (flushConfig s kv).store = dictGet k s.store) ∧
    (∀ (s : Session) (resp : HttpResponse), resp.status_code = 200 →
      ((search_by_title_handle s resp).1.cookies = (updateCookies s resp).cookies ∧
        dictGet "cookies" (search_by_title_handle s resp).1.store
          = some (cookiesJson (updateCookies s resp).cookies) ∧
        (∀ k, k ≠ "cookies" →
          dictGet k (search_by_title_handle s resp).1.store = dictGet k s.store)) ∧
      ((get_audio_link_handle s resp).1.cookies = (updateCookies s resp).cookies ∧
        dictGet "cookies" (get_audio_link_handle s resp).1.store
          = some (cookiesJson (updateCookies s resp).cookies) ∧
        (∀ k, k ≠ "cookies" →
          dictGet k (get_audio_link_handle s resp).1.store = dictGet k s.store)) ∧
      ((get_favorites_handle s resp).1.cookies = (updateCookies s resp).cookies ∧
        dictGet "cookies" (get_favorites_handle s resp).1.store
          = some (cookiesJson (updateCookies s resp).cookies) ∧
        (∀ k, k ≠ "cookies" →
          dictGet k (get_favorites_handle s resp).1.store = dictGet k s.store)) ∧
      ((get_user_favs_handle s resp).1.cookies = (updateCookies s resp).cookies ∧
        dictGet "cookies" (get_user_favs_handle s resp).1.store
          = some (cookiesJson (updateCookies s resp).cookies) ∧
        (∀ k, k ≠ "cookies" →
          dictGet k (get_user_favs_handle s resp).1.store = dictGet k s.store)) ∧
      ((get_pages_cid_handle s resp).1.cookies = (updateCookies s resp).cookies ∧
        (get_pages_cid_handle s resp).1.store = s.store)) ∧
    (∀ (s : Session) (fetchedImg fetchedSub : String) (now : Int),
      (s.img_key = "" ∨ s.sub_key = "" ∨ 86400 < now - s.last_update) →
      ((check_agent_keys s fetchedImg fetchedSub now).img_key = fetchedImg ∧
        (check_agent_keys s fetchedImg fetchedSub now).sub_key = fetchedSub ∧
        dictGet "img_key" (check_agent_keys s fetchedImg fetchedSub now).store
          = some (.jStr fetchedImg) ∧
        dictGet "sub_key" (check_agent_keys s fetchedImg fetchedSub now).store
          = some (.jStr fetchedSub) ∧
        dictGet "last_update" (check_agent_keys s fetchedImg fetchedSub now).store
          = some (.jInt now) ∧
        (∀ k, k ≠ "img_key" → k ≠ "sub_key" → k ≠ "last_update" →
          dictGet k (check_agent_keys s fetchedImg fetchedSub now).store
            = dictGet k s.store))) := by
  refine ⟨?_, ?_, ?_⟩
  · intro s kv k hk
    exact dictGet_dictUpdate_not_mem hk s.store
  · intro s resp h200
    have hsearch : (search_by_title_handle s resp).1
        = flushConfig (updateCookies s resp)
          [("cookies", cookiesJson (updateCookies s resp).cookies)] := by
      simp [search_by_title_handle, h200]
    have haudio : (get_audio_link_handle s resp).1
        = flushConfig (updateCookies s resp)
          [("cookies", cookiesJson (updateCookies s resp).cookies)] := by
      simp [get_audio_link_handle, h200]
    have hfav : (get_favorites_handle s resp).1
        = flushConfig (updateCookies s resp)
          [("cookies", cookiesJson (updateCookies s resp).cookies)] := by
      simp [get_favorites_handle, h200]
    have huser : (get_user_favs_handle s resp).1
        = flushConfig (updateCookies s resp)
          [("cookies", cookiesJson (updateCookies s resp).cookies)] := by
      simp [get_user_favs_handle, h200]
    have hpages : (get_pages_cid_handle s resp).1 = updateCookies s resp := by
      simp [get_pages_cid_handle, h200]
    refine ⟨flushed_op_facts s resp _ hsearch, flushed_op_facts s resp _ haudio,
      flushed_op_facts s resp _ hfav, flushed_op_facts s resp _ huser, ?_, ?_⟩
    · rw [hpages]
    · rw [hpages]
      rfl
  · intro s fetchedImg fetchedSub now htrig
    have hk : check_agent_keys s fetchedImg fetchedSub now
        = flushConfig { s with
            img_key := fetchedImg
            sub_key := fetchedSub
            last_update := now }
          [("img_key", .jStr fetchedImg), ("sub_key", .jStr fetchedSub),
            ("last_update", .jInt now)] := by
      unfold check_agent_keys
      rw [if_pos htrig]
    rw [hk]
    refine ⟨rfl, rfl, ?_, ?_, ?_, ?_⟩
    · show dictGet "img_key" (dictInsert "last_update" _
        (dictInsert "sub_key" _ (dictInsert "img_key" _ s.store))) = _
      rw [dictGet_dictInsert_ne _ (by decide), dictGet_dictInsert_ne _ (by decide),
        dictGet_dictInsert_self]
    · show dictGet "sub_key" (dictInsert "last_update" _
        (dictInsert "sub_key" _ (dictInsert "img_key" _ s.store))) = _
      rw [dictGet_dictInsert_ne _ (by decide), dictGet_dictInsert_self]
    · exact dictGet_dictInsert_self _ _ _
    · intro k h1 h2 h3
      show dictGet k (dictInsert "last_update" _
        (dictInsert "sub_key" _ (dictInsert "img_key" _ s.store))) = _
      rw [dictGet_dictInsert_ne _ h3, dictGet_dictInsert_ne _ h2,
        dictGet_dictInsert_ne _ h1]

theorem mutation_flush_behavior_witness :
    (("header" : String) ∉ ([("cookies", cookiesJson [("a", "b")])]
        : List (String × JVal)).map Prod.fst ∧
      dictGet "header" (flushConfig sessionEx
          [("cookies", cookiesJson [("a", "b")])]).store
        = dictGet "header" sessionEx.store) ∧
    (respPagesOk.status_code = 200 ∧
      dictGet "cookies" (search_by_title_handle sessionEx respPagesOk).1.store
        = some (cookiesJson (updateCookies sessionEx respPagesOk).cookies) ∧
      (get_pages_cid_handle sessionEx respPagesOk).1.store = sessionEx.store) ∧
    ((sessionEx.img_key = "" ∨ sessionEx.sub_key = ""
        ∨ 86400 < (1728000000 : Int) - sessionEx.last_update) ∧
      dictGet "img_key" (check_agent_keys sessionEx "imgK" "subK" 1728000000).store
        = some (.jStr "imgK")) :=
  ⟨⟨by decide, (mutation_flush_behavior.1 sessionEx
      [("cookies", cookiesJson [("a", "b")])] "header" (by decide))⟩,
   ⟨rfl, ((mutation_flush_behavior.2.1 sessionEx respPagesOk rfl).1).2.1,
     ((mutation_flush_behavior.2.1 sessionEx respPagesOk rfl).2.2.2.2).2⟩,
   ⟨Or.inl rfl, ((mutation_flush_behavior.2.2 sessionEx "imgK" "subK" 1728000000
       (Or.inl rfl)).2.2).1⟩⟩

-- ---------------------------------------------------------------------------
-- C8: the audio variant selection
-- ---------------------------------------------------------------------------

/-- The selection rule the spec describes: the leftmost element attaining the
highest key — highest bandwidth, ties broken by the earliest in the original
order. -/
def firstMaxBy {α : Type} (key : α → Int) : List α → Option α
  | [] => none
  | x :: xs =>
    match firstMaxBy key xs with
    | none => some x
    | some m => if key m ≤ key x then some x else some m

/-- The head of the stable descending sort is the leftmost maximum. -/
theorem head_insertionSort_bwGe : ∀ (l : List (Int × JVal)),
    (List.insertionSort bwGe l).head? = firstMaxBy Prod.fst l := by
  intro l
  induction l with
  | nil => rfl
  | cons x xs ih =>
    rw [show List.insertionSort bwGe (x :: xs)
      = List.orderedInsert bwGe x (List.insertionSort bwGe xs) from rfl]
    cases hs : List.insertionSort bwGe xs with
    | nil =>
      have hxs : xs = [] := by
        have hl := List.length_insertionSort bwGe xs
        rw [hs] at hl
        exact List.length_eq_zero.mp hl.symm
      subst hxs
      rfl
    | cons m t =>
      rw [hs] at ih
      have hm : firstMaxBy Prod.fst xs = some m := by rw [← ih]; rfl
      rw [show List.orderedInsert bwGe x (m :: t)
        = if bwGe x m then x :: m :: t else m :: List.orderedInsert bwGe x t from rfl]
      by_cases hle : m.1 ≤ x.1
      · rw [if_pos (show bwGe x m from hle)]
        simp [firstMaxBy, hm, hle]
      · rw [if_neg (show ¬ bwGe x m from hle)]
        simp [firstMaxBy, hm, hle]

/-- One mocked audio stream variant. -/
def mkAudioVariant (v : Int × String) : JVal :=
  .jObj [("bandwidth", .jInt v.1), ("baseUrl", .jStr v.2)]

/-- A success body whose `data.dash.audio` holds the given variants. -/
def mkAudioBody (variants : List (Int × String)) : JVal :=
  .jObj [("data", .jObj [("dash", .jObj
    [("audio", .jArr (variants.map mkAudioVariant))])])]

theorem audio_keyed : ∀ (variants : List (Int × String)),
    List.mapM (fun it => ((JVal.getField it "bandwidth").bind JVal.asInt).map
        (fun b => (b, it)))
      (variants.map mkAudioVariant)
      = some (variants.map (fun v => (v.1, mkAudioVariant v))) := by
  intro variants
  induction variants with
  | nil => rfl
  | cons v vs ih =>
    rw [List.map_cons, List.map_cons, List.mapM_cons]
    rw [show ((JVal.getField (mkAudioVariant v) "bandwidth").bind JVal.asInt).map
        (fun b => (b, mkAudioVariant v)) = some (v.1, mkAudioVariant v) from rfl]
    rw [ih]
    rfl

theorem firstMaxBy_lift : ∀ (variants : List (Int × String)),
    firstMaxBy Prod.fst (variants.map (fun v => (v.1, mkAudioVariant v)))
      = (firstMaxBy Prod.fst variants).map (fun v => (v.1, mkAudioVariant v)) := by
  intro variants
  induction variants with
  | nil => rfl
  | cons v vs ih =>
    rw [List.map_cons]
    simp only [firstMaxBy, ih]
    cases h : firstMaxBy Prod.fst vs with
    | none => rfl
    | some m =>
      by_cases hle : m.1 ≤ v.1 <;> simp [hle]

/-- C8: given a success response whose audio variant list is non-empty,
get_audio_link returns the stream URL of the variant with the highest
bandwidth, ties resolved to the variant appearing earliest in the original
response order; in particular for bandwidths [100, 500, 300] it returns the
URL tagged with bandwidth 500. -/
theorem get_audio_link_best_bandwidth (s : Session)
    (respCookies : List (String × String)) (variants : List (Int × String))
    (hne : variants ≠ []) :
    (∃ best, firstMaxBy Prod.fst variants = some best ∧
      (get_audio_link_handle s ⟨200, respCookies, mkAudioBody variants⟩).2
        = some (.jStr best.2)) ∧
    (get_audio_link_handle sessionEx ⟨200, [], mkAudioBody
        [(100, "u100"), (500, "u500"), (300, "u300")]⟩).2
      = some (.jStr "u500") := by
  refine ⟨?_, rfl⟩
  obtain ⟨v, vs, rfl⟩ : ∃ v vs, variants = v :: vs := by
    cases variants with
    | nil => exact absurd rfl hne
    | cons v vs => exact ⟨v, vs, rfl⟩
  have hfm : ∃ b, firstMaxBy Prod.fst (v :: vs) = some b := by
    simp only [firstMaxBy]
    cases firstMaxBy Prod.fst vs with
    | none => exact ⟨v, rfl⟩
    | some m =>
      by_cases hle : m.1 ≤ v.1
      · exact ⟨v, if_pos hle⟩
      · exact ⟨m, if_neg hle⟩
  obtain ⟨best, hbest⟩ := hfm
  refine ⟨best, hbest, ?_⟩
  have hbody : (get_audio_link_handle s ⟨200, respCookies, mkAudioBody (v :: vs)⟩).2
      = (((v :: vs).map mkAudioVariant).mapM (fun it =>
          ((JVal.getField it "bandwidth").bind JVal.asInt).map
            (fun b => (b, it)))).bind (fun keyed =>
          match List.insertionSort bwGe keyed with
          | [] => some (.jStr "")
          | top :: _ => JVal.getField top.2 "baseUrl") := rfl
  rw [hbody, audio_keyed]
  have hhead : (List.insertionSort bwGe ((v :: vs).map
      (fun v => (v.1, mkAudioVariant v)))).head? = some (best.1, mkAudioVariant best) := by
    rw [head_insertionSort_bwGe, firstMaxBy_lift, hbest]
    rfl
  cases hs : List.insertionSort bwGe ((v :: vs).map
      (fun v => (v.1, mkAudioVariant v))) with
  | nil =>
    rw [hs] at hhead
    exact absurd hhead (by simp)
  | cons top rest =>
    rw [hs] at hhead
    injection hhead with htop
    rw [show (some ((v :: vs).map (fun v => (v.1, mkAudioVariant v)))).bind
        (fun keyed => match List.insertionSort bwGe keyed with
          | [] => some (JVal.jStr "")
          | top :: _ => JVal.getField top.2 "baseUrl")
      = (match List.insertionSort bwGe ((v :: vs).map
          (fun v => (v.1, mkAudioVariant v))) with
        | [] => some (JVal.jStr "")
        | top :: _ => JVal.getField top.2 "baseUrl") from rfl, hs]
    subst htop
    rfl

theorem get_audio_link_best_bandwidth_witness :
    ([(100, "u100"), (500, "u500"), (300, "u300")] : List (Int × String)) ≠ [] ∧
    ((∃ best, firstMaxBy Prod.fst
        ([(100, "u100"), (500, "u500"), (300, "u300")] : List (Int × String))
          = some best ∧
      (get_audio_link_handle sessionEx ⟨200, [("c", "v")], mkAudioBody
          [(100, "u100"), (500, "u500"), (300, "u300")]⟩).2
        = some (.jStr best.2)) ∧
    (get_audio_link_handle sessionEx ⟨200, [], mkAudioBody
        [(100, "u100"), (500, "u500"), (300, "u300")]⟩).2
      = some (.jStr "u500")) :=
  ⟨by decide, get_audio_link_best_bandwidth sessionEx [("c", "v")]
    [(100, "u100"), (500, "u500"), (300, "u300")] (by decide)⟩
